import Mathlib

/-! Shallow embedding of the Duration.js library (Fleco-Development/Duration.js).

The parser and the Duration engine are translated from src/unnamed/part_001
(the current source variant, whose constructor and add/sub rebalance with
largestUnit years); src/duration.ts is the earlier variant of the same file.

The external calendar library (the Temporal polyfill) is not part of this
repository; its operations (duration add/subtract/round/total and the
current-instant queries) are abstracted as the fields of the TemporalOps
structure, so theorems about the engine quantify over the provider where the
claim concerns only the engine's wiring, and concrete provider instances
(modelling documented Temporal behaviour at the specific inputs used) appear
in closed counterexamples and witnesses.  Numeric values are modelled as
unbounded integers: JavaScript numbers are exact on all the integer values
exercised here, and the parser stores only parseInt results, which are
integral. -/

set_option autoImplicit false

/-- Decimal digit test: the d class inside the numeric character class of the
scanning regex in parseString (character codes 48..57 are the digits 0-9). -/
def isDigitChar (c : Char) : Bool :=
  48 ≤ c.toNat && c.toNat ≤ 57

/-- Characters allowed in the numeric part of a match: the regex character
class [-+d.] in parseString (codes: 45 hyphen-minus, 43 plus sign,
46 full stop, and the digits). -/
def numChar (c : Char) : Bool :=
  c.toNat == 45 || c.toNat == 43 || c.toNat == 46 || isDigitChar c

/-- Characters allowed in the unit part of a match: the regex character class
of lowercase ASCII letters plus the two micro signs (codes: 97..122 the
letters a-z, 181 the micro sign, 956 the Greek small mu). -/
def unitChar (c : Char) : Bool :=
  (97 ≤ c.toNat && c.toNat ≤ 122) || c.toNat == 181 || c.toNat == 956

/-- Splits a list into its longest prefix of characters satisfying p and the
remaining suffix; used to model the greedy one-or-more groups of the regex. -/
def takeRun (p : Char → Bool) : List Char → List Char × List Char
  | [] => ([], [])
  | c :: cs =>
    if p c then ((c :: (takeRun p cs).1), (takeRun p cs).2) else ([], c :: cs)

/-- The leftmost match of the scanning regex (a nonempty numeric-character run
immediately followed by a nonempty unit-character run): returns the numeric
text, the unit text and the remainder of the input after the match.  Because
the two character classes are disjoint, the regex engine's backtracking can
never shorten the numeric group into a successful match, and a failed attempt
at the start of a numeric run also fails at every later position inside that
run, so advancing one character at a time computes exactly the leftmost
match. -/
def findMatch : List Char → Option (List Char × List Char × List Char)
  | [] => none
  | c :: cs =>
    if numChar c then
      if (takeRun unitChar (takeRun numChar cs).2).1.isEmpty then findMatch cs
      else some (c :: (takeRun numChar cs).1,
        (takeRun unitChar (takeRun numChar cs).2).1,
        (takeRun unitChar (takeRun numChar cs).2).2)
    else findMatch cs

/-- Numeric value of a digit character. -/
def digitVal (c : Char) : Nat := c.toNat - 48

/-- Value of a list of decimal digit characters, most significant first. -/
def digitsVal (l : List Char) : Nat :=
  l.foldl (fun a c => 10 * a + digitVal c) 0

/-- The value of the longest leading digit run of a string, or none when that
run is empty. -/
def leadingDigitsVal (l : List Char) : Option Nat :=
  let ds := (takeRun isDigitChar l).1
  if ds.isEmpty then none else some (digitsVal ds)

/-- Model of the JavaScript parseInt conversion as applied to the numeric
group of a match (whose characters are drawn from the class of signs, digits
and full stops, so there is no whitespace and no hex prefix): an optional
single leading sign followed by the longest run of decimal digits; the result
is NaN (modelled as none) when that run is empty.  parseInt truncates at the
first non-digit, so a full stop and anything after it are ignored.  Values
are modelled as exact integers; the JavaScript result is the nearest double,
which agrees with the exact value precisely when it is below 2^53, so every
theorem that quantifies over digit runs carries that bound as a hypothesis
and asserts nothing about larger numbers. -/
def parseIntJS (l : List Char) : Option Int :=
  match l with
  | [] => none
  | c :: rest =>
    if c.toNat == 45 then (leadingDigitsVal rest).map (fun n => -(n : Int))
    else if c.toNat == 43 then (leadingDigitsVal rest).map (fun n => (n : Int))
    else (leadingDigitsVal (c :: rest)).map (fun n => (n : Int))

/-- The ten duration fields of the TemporalDuration interface. -/
inductive UnitField where
  | years | months | weeks | days | hours | minutes | seconds
  | milliseconds | microseconds | nanoseconds
deriving DecidableEq

/-- The key-value entries of the unitMap object literal of the source, in
declaration order. -/
def unitPairs : List (List Char × UnitField) :=
  [(['n', 's'], .nanoseconds), (['u', 's'], .microseconds),
   (['µ', 's'], .microseconds), (['μ', 's'], .microseconds),
   (['m', 's'], .milliseconds), (['s'], .seconds), (['m'], .minutes),
   (['h'], .hours), (['d'], .days), (['w'], .weeks), (['m', 'o'], .months),
   (['y'], .years)]

/-- The unitMap object of the source as a lookup of its own keys: maps a
unit suffix to the duration field it denotes; keys the object literal does
not declare are none. -/
def unitMap (u : List Char) : Option UnitField :=
  (unitPairs.find? (fun q => q.1 == u)).map Prod.snd

/-- The one inherited property name of the unitMap object that the unit
regex can produce: since unitMap is a plain object literal, the JavaScript
lookup unitMap[unit] also finds properties of Object.prototype, and of
those only "constructor" consists purely of characters in the unit class
(every other inherited key contains an uppercase letter or an underscore).
Its value, the Object constructor function, is truthy. -/
def constructorKey : List Char :=
  ['c', 'o', 'n', 's', 't', 'r', 'u', 'c', 't', 'o', 'r']

/-- Truthiness of the JavaScript property access unitMap[unit], as tested
by the loop guard: true for the twelve own keys (whose values are nonempty
strings) and for the inherited "constructor" property, false otherwise
(an absent property reads undefined, which is falsy). -/
def unitTruthy (u : List Char) : Bool :=
  (unitMap u).isSome || u = constructorKey

/-- The TemporalDuration interface of the source: ten optional numeric
fields.  A field that was never assigned is none. -/
structure TemporalDuration where
  years : Option Int
  months : Option Int
  weeks : Option Int
  days : Option Int
  hours : Option Int
  minutes : Option Int
  seconds : Option Int
  milliseconds : Option Int
  microseconds : Option Int
  nanoseconds : Option Int
deriving DecidableEq

/-- The empty object literal the parser starts from. -/
def TemporalDuration.empty : TemporalDuration :=
  ⟨none, none, none, none, none, none, none, none, none, none⟩

/-- Field projection of a TemporalDuration. -/
def TemporalDuration.get (r : TemporalDuration) : UnitField → Option Int
  | .years => r.years
  | .months => r.months
  | .weeks => r.weeks
  | .days => r.days
  | .hours => r.hours
  | .minutes => r.minutes
  | .seconds => r.seconds
  | .milliseconds => r.milliseconds
  | .microseconds => r.microseconds
  | .nanoseconds => r.nanoseconds

/-- Property assignment on a TemporalDuration (the statement
durations[field] = value of the scan loop): overwrites the field. -/
def TemporalDuration.set (r : TemporalDuration) : UnitField → Int → TemporalDuration
  | .years, v => { r with years := some v }
  | .months, v => { r with months := some v }
  | .weeks, v => { r with weeks := some v }
  | .days, v => { r with days := some v }
  | .hours, v => { r with hours := some v }
  | .minutes, v => { r with minutes := some v }
  | .seconds, v => { r with seconds := some v }
  | .milliseconds, v => { r with milliseconds := some v }
  | .microseconds, v => { r with microseconds := some v }
  | .nanoseconds, v => { r with nanoseconds := some v }

/-- A Temporal.Duration value of the external library: all ten fields
present, absent fields of the source record read as zero. -/
structure TDur where
  years : Int
  months : Int
  weeks : Int
  days : Int
  hours : Int
  minutes : Int
  seconds : Int
  milliseconds : Int
  microseconds : Int
  nanoseconds : Int
deriving DecidableEq

/-- The zero-length duration. -/
def TDur.zero : TDur := ⟨0, 0, 0, 0, 0, 0, 0, 0, 0, 0⟩

/-- Field projection of a Temporal.Duration value. -/
def TDur.get (d : TDur) : UnitField → Int
  | .years => d.years
  | .months => d.months
  | .weeks => d.weeks
  | .days => d.days
  | .hours => d.hours
  | .minutes => d.minutes
  | .seconds => d.seconds
  | .milliseconds => d.milliseconds
  | .microseconds => d.microseconds
  | .nanoseconds => d.nanoseconds

/-- The errors raised by the parser, plus the error the external library
raises on a semantically invalid record.  The first three carry the text that
is interpolated into the thrown message. -/
inductive ParseError where
  | emptyOrInvalid (text : String)
  | malformedNumber (text : String)
  | unknownUnit (unit : String)
  | invalidMagnitude
deriving DecidableEq

/-- The message of each thrown error, exactly as interpolated in the source
(the zero-match message has no space before the colon, the in-loop message
has one).  The invalidMagnitude message stands for the message of the error
the external library raises. -/
def ParseError.message : ParseError → String
  | .emptyOrInvalid s => "invalid duration: " ++ s
  | .malformedNumber s => "invalid duration : " ++ s
  | .unknownUnit u => "invalid unit : " ++ u
  | .invalidMagnitude => "invalid duration-like object"

/-- True when at least one field of the record is present: the record
conversion of the external library rejects a record with no recognized field
at all. -/
def hasAnyField (r : TemporalDuration) : Bool :=
  r.years.isSome || r.months.isSome || r.weeks.isSome || r.days.isSome ||
  r.hours.isSome || r.minutes.isSome || r.seconds.isSome ||
  r.milliseconds.isSome || r.microseconds.isSome || r.nanoseconds.isSome

/-- True when some present field satisfies p. -/
def optHas (o : Option Int) (p : Int → Bool) : Bool :=
  match o with
  | none => false
  | some v => p v

/-- True when some present field of the record is strictly positive. -/
def anyPos (r : TemporalDuration) : Bool :=
  optHas r.years (0 < ·) || optHas r.months (0 < ·) || optHas r.weeks (0 < ·) ||
  optHas r.days (0 < ·) || optHas r.hours (0 < ·) || optHas r.minutes (0 < ·) ||
  optHas r.seconds (0 < ·) || optHas r.milliseconds (0 < ·) ||
  optHas r.microseconds (0 < ·) || optHas r.nanoseconds (0 < ·)

/-- True when some present field of the record is strictly negative. -/
def anyNeg (r : TemporalDuration) : Bool :=
  optHas r.years (· < 0) || optHas r.months (· < 0) || optHas r.weeks (· < 0) ||
  optHas r.days (· < 0) || optHas r.hours (· < 0) || optHas r.minutes (· < 0) ||
  optHas r.seconds (· < 0) || optHas r.milliseconds (· < 0) ||
  optHas r.microseconds (· < 0) || optHas r.nanoseconds (· < 0)

/-- Reading a record as a duration value: absent fields become zero. -/
def recToTDur (r : TemporalDuration) : TDur :=
  ⟨r.years.getD 0, r.months.getD 0, r.weeks.getD 0, r.days.getD 0,
   r.hours.getD 0, r.minutes.getD 0, r.seconds.getD 0,
   r.milliseconds.getD 0, r.microseconds.getD 0, r.nanoseconds.getD 0⟩

/-- The time part of a duration in exact nanoseconds (days at twenty-four
hours), the quantity the library's duration-validity rule bounds. -/
def normalizedNanos (d : TDur) : Int :=
  (((d.days * 86400 + d.hours * 3600 + d.minutes * 60 + d.seconds) * 1000
    + d.milliseconds) * 1000 + d.microseconds) * 1000 + d.nanoseconds

/-- The range limits of the library's duration-validity rule: the calendar
fields years, months and weeks must be below 2^32 in absolute value, and
the normalized time total must be below 2^53 seconds in absolute value
(stated here exactly, in nanoseconds: below 2^53 times 10^9). -/
def withinLimits (d : TDur) : Bool :=
  d.years.natAbs < 4294967296 && d.months.natAbs < 4294967296
    && d.weeks.natAbs < 4294967296
    && (normalizedNanos d).natAbs < 9007199254740992000000000

/-- Model of the record-to-duration conversion of the external library
(Temporal.Duration.from on a duration-like object): it throws a type error
when no recognized field is present at all, throws a range error when the
present fields mix strictly positive and strictly negative values or exceed
the duration range limits, and otherwise yields the duration whose fields
are the present values (absent fields zero).  All values produced by the
parser are integral, so the integrality check of the library is vacuous
here. -/
def durationFrom (r : TemporalDuration) : Except ParseError TDur :=
  if !hasAnyField r then .error .invalidMagnitude
  else if anyPos r && anyNeg r then .error .invalidMagnitude
  else if !withinLimits (recToTDur r) then .error .invalidMagnitude
  else .ok (recToTDur r)

/-- Outcome of the fuelled scanning loop; outOfFuel is the (provably
unreachable) fuel-exhaustion marker. -/
inductive ScanResult where
  | ok (r : TemporalDuration)
  | err (e : ParseError)
  | outOfFuel
deriving DecidableEq

/-- The assignment durations[unitMap[unit]] = value of the loop body: the
property key is the value of the unitMap lookup.  For an own key that value
is the name of the mapped field, which is assigned.  For the inherited
"constructor" key it is the Object constructor function, whose property-key
coercion is none of the ten recognized field names, so none of the
recognized fields change (the record conversion later reads only those
ten). -/
def assignUnit (acc : TemporalDuration) (unit : List Char) (v : Int) : TemporalDuration :=
  match unitMap unit with
  | some f => acc.set f v
  | none => acc

/-- The while loop of parseString: repeatedly take the next regex match,
convert its numeric text with parseInt (a failed conversion throws the
in-loop invalid-duration error), test the truthiness of the unitMap
property access on its unit text (a falsy access throws the invalid-unit
error naming the suffix; the inherited "constructor" property passes this
guard), and perform the property assignment for the looked-up key,
overwriting any earlier assignment of the same field.  The unit group of a
match is never empty, so the falsy-unit half of the in-loop guard never
fires; the explicit zero-width-match skip of the source is dead code for
the same reason (every match is at least two characters long).  The loop is
modelled with explicit fuel; the termination theorem shows that fuel equal
to the input length plus one is never exhausted. -/
def scanLoop : Nat → List Char → TemporalDuration → String → ScanResult
  | 0, _, _, _ => .outOfFuel
  | fuel + 1, l, acc, orig =>
    match findMatch l with
    | none => .ok acc
    | some (num, unit, rest) =>
      match parseIntJS num with
      | none => .err (.malformedNumber orig)
      | some v =>
        if unitTruthy unit then scanLoop fuel rest (assignUnit acc unit v) orig
        else .err (.unknownUnit (String.mk unit))

/-- The body of parseString over the input's character list: if the regex
matches nowhere in the input, throw the no-match invalid-duration error;
otherwise run the scan loop from the start and convert the accumulated
record with the external library's record conversion.  The outOfFuel branch
is unreachable (see the termination theorem) and is mapped to the no-match
error. -/
def parseCore (l : List Char) (orig : String) : Except ParseError TDur :=
  if (findMatch l).isNone then
    .error (.emptyOrInvalid orig)
  else
    match scanLoop (l.length + 1) l TemporalDuration.empty orig with
    | .ok r => durationFrom r
    | .err e => .error e
    | .outOfFuel => .error (.emptyOrInvalid orig)

/-- The parseString method of the Duration class. -/
def parseString (duration : String) : Except ParseError TDur :=
  parseCore duration.data duration

/-- A calendar date (the value of a plain-date query of the external
library). -/
structure PlainDate where
  year : Int
  month : Int
  day : Int
deriving DecidableEq

/-- The relativeTo option of the engine's operations: a starting date
(modelled by its epoch-millisecond instant) and an optional time-zone
identifier defaulting to UTC. -/
structure RelativeDurationOptions where
  date : Int
  timeZone : Option String
deriving DecidableEq

/-- The reference the engine hands to the external library: either the
anchor's instant rendered in its zone, or the current plain date when no
anchor was supplied. -/
inductive RelativeRef where
  | zonedInstant (epochMillis : Int) (timeZone : String)
  | plainDate (d : PlainDate)
deriving DecidableEq

/-- Abstraction of the external Temporal library as used by the engine: the
current-instant queries and the calendar-aware duration operations, each
parameterized by the reference the engine supplies.  The epoch-seconds query
is an integer (the library floors it).  The seconds total of a duration
(the value of total with unit seconds) is a JavaScript number, fractional
for sub-second magnitudes (five hundred milliseconds total one half); it is
carried here exactly as its count of nanoseconds (the library's internal
integer representation), the value in seconds being that count divided by
ten to the ninth.  Theorems about the engine's wiring quantify over this
structure; concrete instances used in closed statements model documented
Temporal behaviour at the inputs they are applied to. -/
structure TemporalOps where
  nowPlainDateISO : PlainDate
  nowEpochSeconds : Int
  addDur : TDur → TDur → RelativeRef → TDur
  subDur : TDur → TDur → RelativeRef → TDur
  roundLargest : TDur → UnitField → RelativeRef → TDur
  totalNanos : TDur → RelativeRef → Int

/-- The reference resolution performed at the top of the constructor, add,
sub and toDiscordTimestamp: the anchor's date in its zone (zone defaulting
to UTC) when a relativeTo option is present, else the current plain date.
The two optional layers of the source (the options object and its relativeTo
member) are collapsed into one Option. -/
def resolveRelative (P : TemporalOps) (options : Option RelativeDurationOptions) : RelativeRef :=
  match options with
  | some o => .zonedInstant o.date (o.timeZone.getD "UTC")
  | none => .plainDate P.nowPlainDateISO

/-- The runtime-type dispatch shared by the constructor and add/sub: a string
argument goes through parseString, a record argument through the external
library's record conversion (which validates it). -/
def resolveDelta : String ⊕ TemporalDuration → Except ParseError TDur
  | .inl s => parseString s
  | .inr r => durationFrom r

/-- A Duration object: its identity (modelling JavaScript object identity,
so that returning the same mutated instance is expressible) and its current
duration value. -/
structure Duration where
  id : Nat
  duration : TDur
deriving DecidableEq

/-- The constructor of the Duration class (current source variant): parse or
convert the argument, then unconditionally rebalance it with largestUnit
years relative to the resolved reference (the anchor when supplied, else the
current plain date).  The id argument models the identity of the freshly
allocated object. -/
def Duration.create (P : TemporalOps) (source : String ⊕ TemporalDuration)
    (options : Option RelativeDurationOptions) (id : Nat) : Except ParseError Duration :=
  match resolveDelta source with
  | .error e => .error e
  | .ok d0 => .ok ⟨id, P.roundLargest d0 UnitField.years (resolveRelative P options)⟩

/-- The add method: resolve the reference once, parse or convert the delta,
perform the library's calendar-aware addition relative to that reference,
rebalance the sum with largestUnit years relative to the same reference,
store the result in place and return the same object. -/
def Duration.add (P : TemporalOps) (self : Duration) (delta : String ⊕ TemporalDuration)
    (options : Option RelativeDurationOptions) : Except ParseError Duration :=
  let rel := resolveRelative P options
  match resolveDelta delta with
  | .error e => .error e
  | .ok dd =>
    .ok ⟨self.id, P.roundLargest (P.addDur self.duration dd rel) UnitField.years rel⟩

/-- The sub method: symmetric to add with the library's subtraction. -/
def Duration.sub (P : TemporalOps) (self : Duration) (delta : String ⊕ TemporalDuration)
    (options : Option RelativeDurationOptions) : Except ParseError Duration :=
  let rel := resolveRelative P options
  match resolveDelta delta with
  | .error e => .error e
  | .ok dd =>
    .ok ⟨self.id, P.roundLargest (P.subDur self.duration dd rel) UnitField.years rel⟩

/-- The years label of toString: the source ternary reads
years > 1 ? 'years' : 'years', so both branches are the plural form. -/
def yearsLabel (n : Int) : String := if n > 1 then "years" else "years"

/-- The days label of toString: plural above one, singular at one. -/
def daysLabel (n : Int) : String := if n > 1 then "days" else "day"

/-- The hours label of toString. -/
def hoursLabel (n : Int) : String := if n > 1 then "hours" else "hour"

/-- The minutes label of toString. -/
def minutesLabel (n : Int) : String := if n > 1 then "minutes" else "minute"

/-- The seconds label of toString. -/
def secondsLabel (n : Int) : String := if n > 1 then "seconds" else "second"

/-- The toString method: five if-blocks, one per rendered field, in the fixed
order years, days, hours, minutes, seconds; a block appends the field value,
a space, the field's label and a trailing space when the value is strictly
positive, and nothing otherwise.  Weeks, months and the sub-second fields
are never consulted. -/
def Duration.toString (self : Duration) : String :=
  (if self.duration.years > 0 then
    ToString.toString self.duration.years ++ " " ++ yearsLabel self.duration.years ++ " "
  else "")
  ++ (if self.duration.days > 0 then
    ToString.toString self.duration.days ++ " " ++ daysLabel self.duration.days ++ " "
  else "")
  ++ (if self.duration.hours > 0 then
    ToString.toString self.duration.hours ++ " " ++ hoursLabel self.duration.hours ++ " "
  else "")
  ++ (if self.duration.minutes > 0 then
    ToString.toString self.duration.minutes ++ " " ++ minutesLabel self.duration.minutes ++ " "
  else "")
  ++ (if self.duration.seconds > 0 then
    ToString.toString self.duration.seconds ++ " " ++ secondsLabel self.duration.seconds ++ " "
  else "")

/-- Balancing of a duration with largestUnit years relative to a plain date,
as the Temporal library performs it on nonnegative durations whose balanced
day count stays below the length of the month at the reference date (so that
no day-to-month carry occurs; with a plain-date reference a day is exactly 24
hours): nanoseconds carry into microseconds, milliseconds, seconds, minutes,
hours and days at the usual factors, weeks unbalance into days, and twelve
months carry into a year.  Used to instantiate the provider abstraction at
concrete inputs in closed statements. -/
def modelRoundYears (d : TDur) : TDur :=
  let tns : Nat :=
    (((((((d.days.toNat + 7 * d.weeks.toNat) * 24 + d.hours.toNat) * 60
      + d.minutes.toNat) * 60 + d.seconds.toNat) * 1000
      + d.milliseconds.toNat) * 1000 + d.microseconds.toNat) * 1000)
      + d.nanoseconds.toNat
  let ns := tns % 1000
  let t1 := tns / 1000
  let us := t1 % 1000
  let t2 := t1 / 1000
  let ms := t2 % 1000
  let t3 := t2 / 1000
  let sec := t3 % 60
  let t4 := t3 / 60
  let min := t4 % 60
  let t5 := t4 / 60
  let hr := t5 % 24
  let dy := t5 / 24
  let mt := d.months.toNat
  ⟨d.years + (mt / 12 : Nat), (mt % 12 : Nat), 0, (dy : Nat), (hr : Nat),
   (min : Nat), (sec : Nat), (ms : Nat), (us : Nat), (ns : Nat)⟩

/-- Total of a duration that has no calendar components (no years, months
or weeks), in exact nanoseconds, as the Temporal library computes it; a
stand-in provider operation for the concrete instances below, applied only
to such durations. -/
def modelTotalNanos (d : TDur) : Int :=
  normalizedNanos d

/-- Fieldwise sum of two duration values; stands in for the library's
addition in concrete provider instances (faithful to it whenever the raw sum
needs no balancing, which the engine separately applies anyway). -/
def addFieldwise (a b : TDur) : TDur :=
  ⟨a.years + b.years, a.months + b.months, a.weeks + b.weeks, a.days + b.days,
   a.hours + b.hours, a.minutes + b.minutes, a.seconds + b.seconds,
   a.milliseconds + b.milliseconds, a.microseconds + b.microseconds,
   a.nanoseconds + b.nanoseconds⟩

/-- Fieldwise difference of two duration values; the subtraction analogue of
addFieldwise. -/
def subFieldwise (a b : TDur) : TDur :=
  ⟨a.years - b.years, a.months - b.months, a.weeks - b.weeks, a.days - b.days,
   a.hours - b.hours, a.minutes - b.minutes, a.seconds - b.seconds,
   a.milliseconds - b.milliseconds, a.microseconds - b.microseconds,
   a.nanoseconds - b.nanoseconds⟩

/-- A concrete provider instance with a frozen clock (epoch seconds
1700000000, current plain date 2023-11-14): rounding with largestUnit years
follows modelRoundYears, addition and subtraction are fieldwise, and the
nanosecond total follows modelTotalNanos.  Faithful to the Temporal library
on the concrete inputs at which the closed statements below apply it. -/
def frozenOps : TemporalOps where
  nowPlainDateISO := ⟨2023, 11, 14⟩
  nowEpochSeconds := 1700000000
  addDur := fun a b _ => addFieldwise a b
  subDur := fun a b _ => subFieldwise a b
  roundLargest := fun d u _ => if u = UnitField.years then modelRoundYears d else d
  totalNanos := fun d _ => modelTotalNanos d

/-- The duration value holding one hour and thirty minutes. -/
def td1h30m : TDur := ⟨0, 0, 0, 0, 1, 30, 0, 0, 0, 0⟩

deriving instance DecidableEq for Except

/-- One rendered block of toString: the value, a space, the label and a
trailing space when the value is strictly positive, nothing otherwise. -/
def fieldChunk (v : Int) (label : String) : String :=
  if 0 < v then ToString.toString v ++ " " ++ label ++ " " else ""

/-- Overwrites exactly the five fields toString never renders (weeks,
months and the three sub-second fields), leaving the rendered five alone. -/
def TDur.setUnrendered (t : TDur) (w mo ms us ns : Int) : TDur :=
  ⟨t.years, mo, w, t.days, t.hours, t.minutes, t.seconds, ms, us, ns⟩

/-- A well-formed number-unit pair in the sense of the parser's grammar after
the amendment forced by the counterexamples: the numeric text is an optional
plus sign, a nonempty digit run and an optional fractional part (a full stop
followed by digits, which parseInt discards), and the suffix is a key of
unitMap denoting the named field. -/
structure GoodPair where
  plus : Bool
  digits : List Char
  frac : Option (List Char)
  field : UnitField
  suffix : List Char
deriving DecidableEq

/-- Well-formedness of a pair. -/
def GoodPair.valid (p : GoodPair) : Prop :=
  p.digits ≠ [] ∧ p.digits.all isDigitChar = true
  ∧ (p.frac.getD []).all isDigitChar = true
  ∧ unitMap p.suffix = some p.field

instance (p : GoodPair) : Decidable p.valid := by
  unfold GoodPair.valid
  infer_instance

/-- The fractional text of a pair: a full stop followed by the fractional
digits, or nothing. -/
def GoodPair.fracPart (p : GoodPair) : List Char :=
  match p.frac with
  | none => []
  | some fr => '.' :: fr

/-- The numeric text of a pair. -/
def GoodPair.numText (p : GoodPair) : List Char :=
  (if p.plus then ['+'] else []) ++ p.digits ++ p.fracPart

/-- The value parseInt extracts from the pair's numeric text. -/
def GoodPair.value (p : GoodPair) : Int := (digitsVal p.digits : Int)

/-- The concrete text of a pair. -/
def GoodPair.render (p : GoodPair) : List Char := p.numText ++ p.suffix

/-- The concatenation of a list of pairs, with no separators, exactly as the
parser's grammar reads its input. -/
def renderPairs (ps : List GoodPair) : List Char :=
  (ps.map GoodPair.render).flatten

/-- The record update one scan iteration performs for a pair. -/
def stepPair (acc : TemporalDuration) (p : GoodPair) : TemporalDuration :=
  acc.set p.field p.value

/-- The value of the last pair of the list naming the given field, if any:
the last-write-wins specification of the parse result. -/
def lastOcc (f : UnitField) : List GoodPair → Option Int
  | [] => none
  | p :: ps =>
    match lastOcc f ps with
    | some v => some v
    | none => if p.field = f then some p.value else none

/-- Every present field of the record is nonnegative. -/
def recNonneg (r : TemporalDuration) : Prop :=
  ∀ (f : UnitField) (v : Int), r.get f = some v → 0 ≤ v

/-- A digit character belongs to the numeric character class. -/
theorem isDigitChar_numChar {c : Char} (h : isDigitChar c = true) :
    numChar c = true := by
  simp [numChar, h]

/-- A character of the unit class is not in the numeric class (the two regex
character classes are disjoint). -/
theorem unitChar_not_numChar {c : Char} (h : unitChar c = true) :
    numChar c = false := by
  rw [Bool.eq_false_iff]
  intro hn
  simp only [unitChar, numChar, isDigitChar, Bool.or_eq_true, Bool.and_eq_true,
    decide_eq_true_eq, beq_iff_eq] at h hn
  omega

/-- A character of the numeric class is not in the unit class. -/
theorem numChar_not_unitChar {c : Char} (h : numChar c = true) :
    unitChar c = false := by
  rw [Bool.eq_false_iff]
  intro hn
  simp only [unitChar, numChar, isDigitChar, Bool.or_eq_true, Bool.and_eq_true,
    decide_eq_true_eq, beq_iff_eq] at h hn
  omega

/-- A digit character is not in the unit class. -/
theorem isDigitChar_not_unitChar {c : Char} (h : isDigitChar c = true) :
    unitChar c = false :=
  numChar_not_unitChar (isDigitChar_numChar h)

/-- takeRun splits its input: prefix and suffix reassemble to the input. -/
theorem takeRun_fst_append_snd (p : Char → Bool) (l : List Char) :
    (takeRun p l).1 ++ (takeRun p l).2 = l := by
  induction l with
  | nil => rfl
  | cons c cs ih => cases h : p c <;> simp [takeRun, h, ih]

/-- The suffix returned by takeRun is no longer than the input. -/
theorem takeRun_snd_length_le (p : Char → Bool) (l : List Char) :
    (takeRun p l).2.length ≤ l.length := by
  conv_rhs => rw [← takeRun_fst_append_snd p l]
  rw [List.length_append]
  omega

/-- takeRun on a list whose prefix satisfies p and whose suffix starts with a
character violating p (or is empty) returns exactly that split. -/
theorem takeRun_of_append (p : Char → Bool) (a b : List Char)
    (ha : ∀ c ∈ a, p c = true) (hb : ∀ c, b.head? = some c → p c = false) :
    takeRun p (a ++ b) = (a, b) := by
  induction a with
  | nil =>
    cases b with
    | nil => rfl
    | cons c b' => simp [takeRun, hb c rfl]
  | cons x a' ih =>
    have hx : p x = true := ha x (by simp)
    have ih' := ih (fun c hc => ha c (List.mem_cons_of_mem x hc))
    simp [takeRun, hx, ih']

/-- A key of unitMap is nonempty and consists of unit-class characters. -/
theorem unitMap_chars {u : List Char} {f : UnitField} (h : unitMap u = some f) :
    u ≠ [] ∧ ∀ c ∈ u, unitChar c = true := by
  unfold unitMap at h
  cases hq : unitPairs.find? (fun q => q.1 == u) with
  | none => rw [hq] at h; exact Option.noConfusion h
  | some q =>
    have hq' := List.find?_eq_some.mp hq
    have hmem : q ∈ unitPairs := by
      obtain ⟨-, as, bs, hsplit, -⟩ := hq'
      rw [hsplit]
      exact List.mem_append_right as (List.mem_cons_self q bs)
    have heq : q.1 = u := by simpa using hq'.1
    subst heq
    have hall : ∀ q ∈ unitPairs, q.1 ≠ [] ∧ ∀ c ∈ q.1, unitChar c = true := by
      decide
    exact hall q hmem

/-- Every successful match strictly shrinks the remaining input (by at least
the length of the match, which is at least two characters). -/
theorem findMatch_progress :
    ∀ (l num unit rest : List Char), findMatch l = some (num, unit, rest) →
      rest.length < l.length := by
  intro l
  induction l with
  | nil => intro num unit rest h; exact absurd h (by simp [findMatch])
  | cons c cs ih =>
    intro num unit rest h
    unfold findMatch at h
    split at h
    · split at h
      · exact Nat.lt_trans (ih num unit rest h) (Nat.lt_succ_self _)
      · injection h with h2
        have e1 : rest = (takeRun unitChar (takeRun numChar cs).2).2 := by
          have := congrArg (fun t => t.2.2) h2
          simpa using this.symm
        have a1 : (takeRun unitChar (takeRun numChar cs).2).2.length
            ≤ (takeRun numChar cs).2.length := takeRun_snd_length_le _ _
        have a2 : (takeRun numChar cs).2.length ≤ cs.length :=
          takeRun_snd_length_le _ _
        rw [e1]
        simp only [List.length_cons]
        omega
    · exact Nat.lt_trans (ih num unit rest h) (Nat.lt_succ_self _)

/-- Fuel exceeding the input length is never exhausted by the scan loop. -/
theorem scanLoop_sufficient_fuel :
    ∀ (fuel : Nat) (l : List Char) (acc : TemporalDuration) (orig : String),
      l.length < fuel → scanLoop fuel l acc orig ≠ ScanResult.outOfFuel := by
  intro fuel
  induction fuel with
  | zero => intro l acc orig h; omega
  | succ n ih =>
    intro l acc orig h
    cases hm : findMatch l with
    | none => simp [scanLoop, hm]
    | some t =>
      obtain ⟨num, unit, rest⟩ := t
      cases hp : parseIntJS num with
      | none => simp [scanLoop, hm, hp]
      | some v =>
        have hlt : rest.length < n :=
          lt_of_lt_of_le (findMatch_progress l num unit rest hm)
            (Nat.lt_succ_iff.mp h)
        by_cases ht : unitTruthy unit = true
        · simp only [scanLoop, hm, hp, ht, if_true]
          exact ih rest (assignUnit acc unit v) orig hlt
        · simp [scanLoop, hm, hp, ht]

/-- Claim C9: parseString terminates on every input: each loop iteration
consumes at least one character of the remaining input (a match is at least
two characters long and the remainder strictly shrinks), so the scan of any
string, including one with no valid pairs, completes within fuel bounded by
the input length and the fuel-exhaustion outcome is unreachable. -/
theorem scan_always_terminates :
    (∀ (l num unit rest : List Char),
      findMatch l = some (num, unit, rest) → rest.length < l.length)
    ∧ ∀ (s : String) (acc : TemporalDuration),
        scanLoop (s.data.length + 1) s.data acc s ≠ ScanResult.outOfFuel :=
  ⟨findMatch_progress, fun s acc =>
    scanLoop_sufficient_fuel (s.data.length + 1) s.data acc s (Nat.lt_succ_self _)⟩

/-- Witness for C9 at concrete inputs: the match of "1h" leaves a strictly
shorter remainder, and scanning the matchless "abc" does not exhaust its
fuel. -/
theorem scan_always_terminates_witness :
    (List.length ([] : List Char) < ("1h".data).length)
    ∧ scanLoop ("abc".data.length + 1) "abc".data TemporalDuration.empty "abc"
        ≠ ScanResult.outOfFuel :=
  ⟨scan_always_terminates.1 "1h".data ['1'] ['h'] [] (by decide),
   scan_always_terminates.2 "abc" TemporalDuration.empty⟩

/-- Counterexample to claim C2 as stated: "5constructor" has a match whose
parsed suffix is not in the suffix table, yet parseString does not fail with
the invalid-unit error naming it: the JavaScript truthiness guard finds the
inherited Object.prototype.constructor property, the value is assigned
under a garbage key no recognized field sees, and the parse dies in the
record conversion (a type error, since no recognized field was ever set). -/
theorem parse_prototype_counterexample :
    parseString "5constructor" = Except.error ParseError.invalidMagnitude
    ∧ ParseError.invalidMagnitude
        ≠ ParseError.unknownUnit (String.mk constructorKey) :=
  ⟨by decide, by decide⟩

/-- Claim C2 (amended): failure classification of parseString.  An input
with no match at all fails with the no-match invalid-duration error; a
match whose numeric text parseInt cannot convert makes the loop fail with
the malformed-number error (at any iteration); a match whose numeric text
converts and whose unit text is falsy under the unitMap property access
makes the loop fail with the invalid-unit error naming that suffix — and
that access is truthy exactly on the twelve own keys plus the inherited
"constructor" property, which is not an own key, so "constructor" is the
one unmapped suffix that escapes the invalid-unit error: its iteration
continues with the record unchanged, after which the parse either fails in
the record conversion (as in the counterexample) or succeeds ignoring it
when another pair set a recognized field.  Loop failures are exactly what
parseString raises (the model returns an error and never a duration value),
and concretely "5xz" fails with the invalid-unit error whose message names
"xz". -/
theorem parse_error_classification :
    (∀ s : String, findMatch s.data = none →
      parseString s = .error (.emptyOrInvalid s))
    ∧ (∀ (fuel : Nat) (l : List Char) (acc : TemporalDuration) (s : String)
        (num unit rest : List Char),
        findMatch l = some (num, unit, rest) → parseIntJS num = none →
        scanLoop (fuel + 1) l acc s = .err (.malformedNumber s))
    ∧ (∀ (fuel : Nat) (l : List Char) (acc : TemporalDuration) (s : String)
        (num unit rest : List Char) (v : Int),
        findMatch l = some (num, unit, rest) → parseIntJS num = some v →
        unitTruthy unit = false →
        scanLoop (fuel + 1) l acc s = .err (.unknownUnit (String.mk unit)))
    ∧ (∀ u : List Char,
        unitTruthy u = false ↔ (unitMap u = none ∧ u ≠ constructorKey))
    ∧ (∀ (fuel : Nat) (l : List Char) (acc : TemporalDuration) (s : String)
        (num rest : List Char) (v : Int),
        findMatch l = some (num, constructorKey, rest) →
        parseIntJS num = some v →
        scanLoop (fuel + 1) l acc s = scanLoop fuel rest acc s)
    ∧ (∀ (s : String) (e : ParseError),
        scanLoop (s.data.length + 1) s.data TemporalDuration.empty s = .err e →
        parseString s = .error e)
    ∧ parseString "5xz" = .error (.unknownUnit "xz")
    ∧ (ParseError.unknownUnit "xz").message = "invalid unit : xz"
    ∧ parseString "1h5constructor"
        = Except.ok ⟨0, 0, 0, 0, 1, 0, 0, 0, 0, 0⟩ := by
  refine ⟨?_, ?_, ?_, ?_, ?_, ?_, by decide, by decide, by decide⟩
  · intro s h
    simp [parseString, parseCore, h]
  · intro fuel l acc s num unit rest h1 h2
    simp [scanLoop, h1, h2]
  · intro fuel l acc s num unit rest v h1 h2 h3
    simp [scanLoop, h1, h2, h3]
  · intro u
    constructor
    · intro h
      constructor
      · cases hu : unitMap u with
        | none => rfl
        | some f => rw [unitTruthy, hu] at h; simp at h
      · intro hc
        rw [hc] at h
        exact absurd h (by decide)
    · intro h
      simp [unitTruthy, h.1, h.2]
  · intro fuel l acc s num rest v h1 h2
    have ht : unitTruthy constructorKey = true := by decide
    have ha : assignUnit acc constructorKey v = acc := by
      simp [assignUnit, show unitMap constructorKey = none from by decide]
    simp only [scanLoop, h1, h2, ht, if_true, ha]
  · intro s e h
    cases hm : findMatch s.data with
    | none =>
      rw [show scanLoop (s.data.length + 1) s.data TemporalDuration.empty s
          = .ok TemporalDuration.empty by simp [scanLoop, hm]] at h
      exact ScanResult.noConfusion h
    | some t =>
      have hne : (findMatch s.data).isNone = false := by rw [hm]; rfl
      simp only [parseString, parseCore, hne, Bool.false_eq_true, if_false, h]

/-- Witness for the amended C2 at concrete inputs: "abc" has no match and
raises the no-match error, the first match of "..s" has unparsable numeric
text and the loop raises the malformed-number error, the first match of
"5xz" has a falsy suffix and the loop raises the invalid-unit error naming
it, and the "constructor"-suffixed match of "5constructor" raises nothing
and leaves the record unchanged. -/
theorem parse_error_classification_witness :
    parseString "abc" = .error (.emptyOrInvalid "abc")
    ∧ scanLoop 1 "..s".data TemporalDuration.empty "..s"
        = .err (.malformedNumber "..s")
    ∧ scanLoop 1 "5xz".data TemporalDuration.empty "5xz"
        = .err (.unknownUnit (String.mk ['x', 'z']))
    ∧ scanLoop 2 "5constructor".data TemporalDuration.empty "5constructor"
        = scanLoop 1 [] TemporalDuration.empty "5constructor" :=
  ⟨parse_error_classification.1 "abc" (by decide),
   parse_error_classification.2.1 0 "..s".data TemporalDuration.empty "..s"
     ['.', '.'] ['s'] [] (by decide) (by decide),
   parse_error_classification.2.2.1 0 "5xz".data TemporalDuration.empty "5xz"
     ['5'] ['x', 'z'] [] 5 (by decide) (by decide) (by decide),
   parse_error_classification.2.2.2.2.1 1 "5constructor".data
     TemporalDuration.empty "5constructor" ['5'] [] 5 (by decide) (by decide)⟩

/-- Claim C10: a Duration none of whose five rendered fields (years, days,
hours, minutes, seconds) is strictly positive, in particular any wholly
negative duration, renders as the empty string: negative magnitudes are
never rendered. -/
theorem toString_nonpositive_empty (d : Duration)
    (h1 : d.duration.years ≤ 0) (h2 : d.duration.days ≤ 0)
    (h3 : d.duration.hours ≤ 0) (h4 : d.duration.minutes ≤ 0)
    (h5 : d.duration.seconds ≤ 0) :
    Duration.toString d = "" := by
  unfold Duration.toString
  rw [if_neg (by omega), if_neg (by omega), if_neg (by omega),
    if_neg (by omega), if_neg (by omega)]
  rfl

/-- Witness for C10: a duration with negative rendered fields (and positive
never-rendered fields) renders as the empty string. -/
theorem toString_nonpositive_empty_witness :
    ((-2 : Int) ≤ 0)
    ∧ Duration.toString ⟨0, ⟨-2, 5, 5, -3, 0, -7, -1, 9, 9, 9⟩⟩ = "" :=
  ⟨by decide,
   toString_nonpositive_empty ⟨0, ⟨-2, 5, 5, -3, 0, -7, -1, 9, 9, 9⟩⟩
     (by decide) (by decide) (by decide) (by decide) (by decide)⟩

/-- Counterexample to claim C6 as stated: the years field of value one is
rendered with the plural label (the source ternary for years yields the
plural form in both branches), so the rendered word is not singular at
magnitude one for all five fields. -/
theorem pluralization_counterexample :
    Duration.toString ⟨0, ⟨1, 0, 0, 0, 0, 0, 0, 0, 0, 0⟩⟩ = "1 years "
    ∧ "1 years " ≠ "1 year " := by
  exact ⟨by decide, by decide⟩

/-- Claim C6 (amended): for every rendered field of positive magnitude, the
unit word is singular exactly at magnitude one and plural above one for
days, hours, minutes and seconds; the years label is always the plural form,
even at magnitude one. -/
theorem pluralization_rule (n : Int) (h : 0 < n) :
    (daysLabel n = "day" ↔ n = 1) ∧ (hoursLabel n = "hour" ↔ n = 1)
    ∧ (minutesLabel n = "minute" ↔ n = 1)
    ∧ (secondsLabel n = "second" ↔ n = 1)
    ∧ yearsLabel n = "years" := by
  unfold daysLabel hoursLabel minutesLabel secondsLabel yearsLabel
  by_cases h1 : n > 1
  · have h2 : n ≠ 1 := by omega
    rw [if_pos h1, if_pos h1, if_pos h1, if_pos h1, if_pos h1]
    refine ⟨?_, ?_, ?_, ?_, rfl⟩ <;> simp [h2]
  · have h2 : n = 1 := by omega
    rw [if_neg h1, if_neg h1, if_neg h1, if_neg h1, if_neg h1]
    refine ⟨?_, ?_, ?_, ?_, rfl⟩ <;> simp [h2]

/-- Witness for the amended C6 at magnitude one: the four lower labels are
singular and the years label is plural. -/
theorem pluralization_rule_witness :
    ((0 : Int) < 1)
    ∧ ((daysLabel 1 = "day" ↔ (1 : Int) = 1)
      ∧ (hoursLabel 1 = "hour" ↔ (1 : Int) = 1)
      ∧ (minutesLabel 1 = "minute" ↔ (1 : Int) = 1)
      ∧ (secondsLabel 1 = "second" ↔ (1 : Int) = 1)
      ∧ yearsLabel 1 = "years") :=
  ⟨by decide, pluralization_rule 1 (by decide)⟩

/-- Claim C5: toString renders exactly the strictly positive fields among
years, days, hours, minutes, seconds, in that fixed order, each block being
the value, a space, the field label and a trailing space; the never-rendered
fields (weeks, months and the sub-second three) do not influence the output
even when nonzero; and a Duration constructed from "1h30m" with no anchor
(for any provider whose largest-unit-years rounding fixes that already
balanced value, as the Temporal library's does) renders as
"1 hour 30 minutes ", containing "1 hour" and "30 minutes" in that order
and no other fields. -/
theorem toString_rendered_fields :
    (∀ (d : Duration) (w mo ms us ns : Int),
      Duration.toString ⟨d.id, d.duration.setUnrendered w mo ms us ns⟩
        = Duration.toString d)
    ∧ (∀ d : Duration, Duration.toString d =
        fieldChunk d.duration.years (yearsLabel d.duration.years)
        ++ fieldChunk d.duration.days (daysLabel d.duration.days)
        ++ fieldChunk d.duration.hours (hoursLabel d.duration.hours)
        ++ fieldChunk d.duration.minutes (minutesLabel d.duration.minutes)
        ++ fieldChunk d.duration.seconds (secondsLabel d.duration.seconds))
    ∧ (∀ (P : TemporalOps) (id : Nat),
        P.roundLargest td1h30m UnitField.years
            (RelativeRef.plainDate P.nowPlainDateISO) = td1h30m →
        Duration.create P (Sum.inl "1h30m") none id = Except.ok ⟨id, td1h30m⟩
          ∧ Duration.toString ⟨id, td1h30m⟩ = "1 hour 30 minutes ") := by
  refine ⟨fun d w mo ms us ns => rfl, fun d => rfl, ?_⟩
  intro P id h
  constructor
  · have hp : parseString "1h30m" = Except.ok td1h30m := by decide
    simp only [Duration.create, resolveDelta, hp, resolveRelative, h]
  · rfl

/-- Witness for C5: the never-rendered fields of a concrete duration do not
change the output, and a Duration built from "1h30m" under the frozen
provider renders as "1 hour 30 minutes ". -/
theorem toString_rendered_fields_witness :
    Duration.toString ⟨0, ⟨0, 7, 2, 0, 1, 30, 0, 500, 0, 0⟩⟩
      = Duration.toString ⟨0, ⟨0, 0, 0, 0, 1, 30, 0, 0, 0, 0⟩⟩
    ∧ (Duration.create frozenOps (Sum.inl "1h30m") none 0
        = Except.ok ⟨0, td1h30m⟩
      ∧ Duration.toString ⟨0, td1h30m⟩ = "1 hour 30 minutes ") :=
  ⟨toString_rendered_fields.1 ⟨0, ⟨0, 0, 0, 0, 1, 30, 0, 0, 0, 0⟩⟩ 2 7 500 0 0,
   toString_rendered_fields.2.2 frozenOps 0 (by decide)⟩

/-- Claim C4: add resolves the reference once (the anchor's date in its
zone, defaulting to UTC, else the current plain date), converts the delta
(parsing it when textual, propagating parse failures), performs the
calendar-aware addition relative to that reference, then rebalances the sum
with largestUnit years relative to the same reference, stores the result in
place and returns the same instance (same object identity); sub is
symmetric with the subtraction operation. -/
theorem add_sub_calendar_spec :
    (∀ (P : TemporalOps) (self : Duration) (delta : String ⊕ TemporalDuration)
        (options : Option RelativeDurationOptions) (e : ParseError),
      resolveDelta delta = .error e →
        Duration.add P self delta options = .error e
          ∧ Duration.sub P self delta options = .error e)
    ∧ (∀ (P : TemporalOps) (self : Duration) (delta : String ⊕ TemporalDuration)
        (options : Option RelativeDurationOptions) (dd : TDur),
      resolveDelta delta = .ok dd →
        Duration.add P self delta options = .ok ⟨self.id,
          P.roundLargest (P.addDur self.duration dd (resolveRelative P options))
            UnitField.years (resolveRelative P options)⟩
          ∧ Duration.sub P self delta options = .ok ⟨self.id,
            P.roundLargest (P.subDur self.duration dd (resolveRelative P options))
              UnitField.years (resolveRelative P options)⟩) := by
  constructor
  · intro P self delta options e h
    constructor <;> simp only [Duration.add, Duration.sub, h]
  · intro P self delta options dd h
    constructor <;> simp only [Duration.add, Duration.sub, h]

/-- Witness for C4 under the frozen provider: adding the parsed "12mo" to a
one-month duration yields one year one month after the largest-unit-years
rebalance (thirteen months collapse), on the same instance (id 7), and
subtracting "1mo" from fourteen months is symmetric. -/
theorem add_sub_calendar_spec_witness :
    Duration.add frozenOps ⟨7, ⟨0, 1, 0, 0, 0, 0, 0, 0, 0, 0⟩⟩
        (Sum.inl "12mo") none
      = Except.ok ⟨7, ⟨1, 1, 0, 0, 0, 0, 0, 0, 0, 0⟩⟩
    ∧ Duration.sub frozenOps ⟨7, ⟨0, 14, 0, 0, 0, 0, 0, 0, 0, 0⟩⟩
        (Sum.inl "1mo") none
      = Except.ok ⟨7, ⟨1, 1, 0, 0, 0, 0, 0, 0, 0, 0⟩⟩ :=
  ⟨((add_sub_calendar_spec.2 frozenOps ⟨7, ⟨0, 1, 0, 0, 0, 0, 0, 0, 0, 0⟩⟩
      (Sum.inl "12mo") none ⟨0, 12, 0, 0, 0, 0, 0, 0, 0, 0⟩ (by decide)).1).trans
    (by decide),
   ((add_sub_calendar_spec.2 frozenOps ⟨7, ⟨0, 14, 0, 0, 0, 0, 0, 0, 0, 0⟩⟩
      (Sum.inl "1mo") none ⟨0, 1, 0, 0, 0, 0, 0, 0, 0, 0⟩ (by decide)).2).trans
    (by decide)⟩

/-- Counterexample to claim C3 as stated: constructing from "25h" with no
anchor does not keep the raw parsed magnitudes; the constructor rounds with
largestUnit years relative to the current plain date even without an anchor
(the Temporal library balances twenty-five hours into one day one hour for
any reference date), so the stored value differs from the parse result. -/
theorem construction_counterexample :
    parseString "25h" = Except.ok ⟨0, 0, 0, 0, 25, 0, 0, 0, 0, 0⟩
    ∧ Duration.create frozenOps (Sum.inl "25h") none 0
        = Except.ok ⟨0, ⟨0, 0, 0, 1, 1, 0, 0, 0, 0, 0⟩⟩
    ∧ (⟨0, 0, 0, 1, 1, 0, 0, 0, 0, 0⟩ : TDur)
        ≠ ⟨0, 0, 0, 0, 25, 0, 0, 0, 0, 0⟩ :=
  ⟨by decide, by decide, by decide⟩

/-- Claim C3 (amended): the constructor always rebalances the initial value
with largestUnit years; the reference is the supplied anchor's date in its
zone when the relativeTo option is present, and otherwise the current plain
date (so an anchorless construction is rebalanced too, against the current
date). -/
theorem construction_always_rebalances :
    (∀ (P : TemporalOps) (source : String ⊕ TemporalDuration)
        (options : Option RelativeDurationOptions) (id : Nat) (d0 : TDur),
      resolveDelta source = .ok d0 →
        Duration.create P source options id
          = .ok ⟨id, P.roundLargest d0 UnitField.years (resolveRelative P options)⟩)
    ∧ (∀ (P : TemporalOps) (source : String ⊕ TemporalDuration)
        (options : Option RelativeDurationOptions) (id : Nat) (e : ParseError),
      resolveDelta source = .error e →
        Duration.create P source options id = .error e)
    ∧ ∀ P : TemporalOps,
        resolveRelative P none = RelativeRef.plainDate P.nowPlainDateISO := by
  refine ⟨?_, ?_, fun P => rfl⟩
  · intro P source options id d0 h
    simp only [Duration.create, h]
  · intro P source options id e h
    simp only [Duration.create, h]

/-- Witness for the amended C3: constructing from "1d" with no anchor under
the frozen provider stores the largest-unit-years rebalance of the parse
result relative to the current plain date. -/
theorem construction_always_rebalances_witness :
    Duration.create frozenOps (Sum.inl "1d") none 3
      = Except.ok ⟨3, frozenOps.roundLargest ⟨0, 0, 0, 1, 0, 0, 0, 0, 0, 0⟩
          UnitField.years (resolveRelative frozenOps none)⟩ :=
  construction_always_rebalances.1 frozenOps (Sum.inl "1d") none 3
    ⟨0, 0, 0, 1, 0, 0, 0, 0, 0, 0⟩ (by decide)

/-- Reading a field after an assignment: the assigned field holds the new
value, every other field is unchanged. -/
theorem TemporalDuration.get_set (r : TemporalDuration) (g f : UnitField) (v : Int) :
    (r.set g v).get f = if g = f then some v else r.get f := by
  cases g <;> cases f <;> simp [TemporalDuration.set, TemporalDuration.get]

/-- Every field of the empty record is absent. -/
theorem TemporalDuration.empty_get (f : UnitField) :
    TemporalDuration.empty.get f = none := by
  cases f <;> rfl

/-- Folding the per-pair assignments over an accumulator realizes
last-write-wins: a field holds the last pair's value for it, and the
accumulator's value where no pair names it. -/
theorem foldl_stepPair_get (ps : List GoodPair) :
    ∀ (acc : TemporalDuration) (f : UnitField),
      (ps.foldl stepPair acc).get f =
        (match lastOcc f ps with
          | some v => some v
          | none => acc.get f) := by
  induction ps with
  | nil => intro acc f; rfl
  | cons p ps ih =>
    intro acc f
    rw [List.foldl_cons, ih (stepPair acc p) f]
    cases h : lastOcc f ps with
    | some v => simp [lastOcc, h]
    | none =>
      simp only [lastOcc, h]
      by_cases hf : p.field = f
      · simp [stepPair, TemporalDuration.get_set, hf]
      · simp [stepPair, TemporalDuration.get_set, hf]

/-- Last-occurrence values are digit values, hence nonnegative. -/
theorem lastOcc_nonneg (f : UnitField) (ps : List GoodPair) (v : Int) :
    lastOcc f ps = some v → 0 ≤ v := by
  induction ps with
  | nil => intro h; exact Option.noConfusion h
  | cons p ps ih =>
    intro h
    simp only [lastOcc] at h
    cases hl : lastOcc f ps with
    | some w =>
      rw [hl] at h
      injection h with h2
      subst h2
      exact ih hl
    | none =>
      rw [hl] at h
      by_cases hf : p.field = f
      · rw [if_pos hf] at h
        injection h with h2
        rw [← h2]
        show 0 ≤ (digitsVal p.digits : Int)
        exact Int.natCast_nonneg _
      · rw [if_neg hf] at h
        exact Option.noConfusion h

/-- The per-pair fold preserves nonnegativity of all present fields. -/
theorem foldl_stepPair_nonneg (ps : List GoodPair) (acc : TemporalDuration)
    (hacc : recNonneg acc) : recNonneg (ps.foldl stepPair acc) := by
  intro f v h
  rw [foldl_stepPair_get] at h
  cases hl : lastOcc f ps with
  | some w =>
    rw [hl] at h
    injection h with h2
    subst h2
    exact lastOcc_nonneg f ps _ hl
  | none =>
    rw [hl] at h
    exact hacc f v h

/-- The empty record is (vacuously) nonnegative. -/
theorem recNonneg_empty : recNonneg TemporalDuration.empty := by
  intro f v h
  rw [TemporalDuration.empty_get] at h
  exact Option.noConfusion h

/-- A field whose present values are nonnegative never tests negative. -/
theorem optHas_neg_false (o : Option Int) (h : ∀ v, o = some v → 0 ≤ v) :
    optHas o (· < 0) = false := by
  cases o with
  | none => rfl
  | some v =>
    have hv := h v rfl
    simp only [optHas, decide_eq_false_iff_not]
    omega

/-- A record all of whose present fields are nonnegative has no strictly
negative field. -/
theorem anyNeg_false {r : TemporalDuration} (h : recNonneg r) :
    anyNeg r = false := by
  unfold anyNeg
  rw [optHas_neg_false r.years (fun v hv => h .years v hv),
    optHas_neg_false r.months (fun v hv => h .months v hv),
    optHas_neg_false r.weeks (fun v hv => h .weeks v hv),
    optHas_neg_false r.days (fun v hv => h .days v hv),
    optHas_neg_false r.hours (fun v hv => h .hours v hv),
    optHas_neg_false r.minutes (fun v hv => h .minutes v hv),
    optHas_neg_false r.seconds (fun v hv => h .seconds v hv),
    optHas_neg_false r.milliseconds (fun v hv => h .milliseconds v hv),
    optHas_neg_false r.microseconds (fun v hv => h .microseconds v hv),
    optHas_neg_false r.nanoseconds (fun v hv => h .nanoseconds v hv)]
  rfl

/-- A record with at least one present field passes the presence check of
the record conversion. -/
theorem hasAny_of_get {r : TemporalDuration} {f : UnitField} {v : Int}
    (h : r.get f = some v) : hasAnyField r = true := by
  cases f <;>
    (simp only [TemporalDuration.get] at h; simp [hasAnyField, h])

/-- The record conversion succeeds on a record with a present field, no
negative present field and a result within the duration range limits,
yielding the duration with absent fields zero. -/
theorem durationFrom_ok {r : TemporalDuration} {f : UnitField} {v : Int}
    (hf : r.get f = some v) (hnn : recNonneg r)
    (hlim : withinLimits (recToTDur r) = true) :
    durationFrom r = .ok (recToTDur r) := by
  unfold durationFrom
  rw [hasAny_of_get hf, anyNeg_false hnn, Bool.and_false, hlim]
  rfl

/-- A digit character is neither the minus sign nor the plus sign. -/
theorem isDigit_not_sign {c : Char} (h : isDigitChar c = true) :
    (c.toNat == 45) = false ∧ (c.toNat == 43) = false := by
  simp only [isDigitChar, Bool.and_eq_true, decide_eq_true_eq] at h
  constructor <;> (simp only [beq_eq_false_iff_ne, ne_eq]; omega)

/-- The leading digit run of a digit run followed by a non-digit (or by
nothing) is exactly that run, with its value. -/
theorem leadingDigitsVal_append (a b : List Char) (ha : a ≠ [])
    (hda : ∀ c ∈ a, isDigitChar c = true)
    (hb : ∀ c, b.head? = some c → isDigitChar c = false) :
    leadingDigitsVal (a ++ b) = some (digitsVal a) := by
  simp only [leadingDigitsVal]
  rw [takeRun_of_append isDigitChar a b hda hb]
  simp [ha]

/-- parseInt on an unsigned digit run followed by non-digit text yields the
run's value. -/
theorem parseIntJS_unsigned (a b : List Char) (ha : a ≠ [])
    (hda : ∀ c ∈ a, isDigitChar c = true)
    (hb : ∀ c, b.head? = some c → isDigitChar c = false) :
    parseIntJS (a ++ b) = some ((digitsVal a : Int)) := by
  cases a with
  | nil => exact absurd rfl ha
  | cons c cs =>
    have hc := hda c (by simp)
    obtain ⟨h45, h43⟩ := isDigit_not_sign hc
    rw [List.cons_append]
    simp only [parseIntJS, h45, h43, Bool.false_eq_true, if_false]
    rw [← List.cons_append, leadingDigitsVal_append (c :: cs) b ha hda hb]
    rfl

/-- parseInt on a plus sign, a digit run and non-digit text yields the run's
value. -/
theorem parseIntJS_plus (a b : List Char) (ha : a ≠ [])
    (hda : ∀ c ∈ a, isDigitChar c = true)
    (hb : ∀ c, b.head? = some c → isDigitChar c = false) :
    parseIntJS ('+' :: (a ++ b)) = some ((digitsVal a : Int)) := by
  simp only [parseIntJS]
  rw [if_neg (by decide), if_pos (by decide)]
  rw [leadingDigitsVal_append a b ha hda hb]
  rfl

/-- The fractional text never starts with a digit. -/
theorem fracPart_head (p : GoodPair) :
    ∀ c, p.fracPart.head? = some c → isDigitChar c = false := by
  intro c hc
  cases hfr : p.frac with
  | none => rw [GoodPair.fracPart, hfr] at hc; exact Option.noConfusion hc
  | some fr =>
    rw [GoodPair.fracPart, hfr] at hc
    simp only [List.head?_cons, Option.some.injEq] at hc
    rw [← hc]
    decide

/-- Every character of the fractional text of a valid pair is in the
numeric class. -/
theorem fracPart_numChar (p : GoodPair) (h : p.valid) :
    ∀ c ∈ p.fracPart, numChar c = true := by
  intro c hc
  cases hfr : p.frac with
  | none => rw [GoodPair.fracPart, hfr] at hc; exact absurd hc (by simp)
  | some fr =>
    rw [GoodPair.fracPart, hfr] at hc
    rcases List.mem_cons.mp hc with h1 | h1
    · rw [h1]; decide
    · have hall := h.2.2.1
      rw [hfr] at hall
      exact isDigitChar_numChar (List.all_eq_true.mp hall c h1)

/-- Every character of the numeric text of a valid pair is in the numeric
class. -/
theorem numText_numChar (p : GoodPair) (h : p.valid) :
    ∀ c ∈ p.numText, numChar c = true := by
  intro c hc
  simp only [GoodPair.numText, List.append_assoc, List.mem_append] at hc
  rcases hc with h1 | h1 | h1
  · cases hp : p.plus with
    | true => rw [hp] at h1; rcases List.mem_singleton.mp h1 with rfl; decide
    | false => rw [hp] at h1; exact absurd h1 (by simp)
  · exact isDigitChar_numChar (List.all_eq_true.mp h.2.1 c h1)
  · exact fracPart_numChar p h c h1

/-- The numeric text of a valid pair starts with a numeric-class character. -/
theorem numText_head (p : GoodPair) (h : p.valid) :
    ∃ c t, p.numText = c :: t ∧ numChar c = true := by
  cases hp : p.plus with
  | true =>
    refine ⟨'+', p.digits ++ p.fracPart, ?_, by decide⟩
    simp [GoodPair.numText, hp]
  | false =>
    cases hd : p.digits with
    | nil => exact absurd hd h.1
    | cons d ds =>
      refine ⟨d, ds ++ p.fracPart, ?_, ?_⟩
      · simp [GoodPair.numText, hp, hd]
      · have := List.all_eq_true.mp h.2.1 d (by rw [hd]; simp)
        exact isDigitChar_numChar this

/-- The numeric text of a valid pair is nonempty. -/
theorem numText_ne_nil (p : GoodPair) (h : p.valid) : p.numText ≠ [] := by
  obtain ⟨c, t, heq, -⟩ := numText_head p h
  rw [heq]
  simp

/-- parseInt extracts exactly the integer digit-run value from the numeric
text of a valid pair: the optional plus sign is consumed and the fractional
text is truncated away. -/
theorem parseIntJS_numText (p : GoodPair) (h : p.valid) :
    parseIntJS p.numText = some p.value := by
  have hda : ∀ c ∈ p.digits, isDigitChar c = true := List.all_eq_true.mp h.2.1
  have hfh := fracPart_head p
  cases hp : p.plus with
  | true =>
    have : p.numText = '+' :: (p.digits ++ p.fracPart) := by
      simp [GoodPair.numText, hp]
    rw [this]
    exact parseIntJS_plus p.digits p.fracPart h.1 hda hfh
  | false =>
    have : p.numText = p.digits ++ p.fracPart := by
      simp [GoodPair.numText, hp]
    rw [this]
    exact parseIntJS_unsigned p.digits p.fracPart h.1 hda hfh

/-- The leftmost match of text shaped as a numeric run, a unit run and a
remainder not starting with a unit character is exactly those three parts. -/
theorem findMatch_of_shape (num unit rest : List Char)
    (hn : num ≠ []) (hnall : ∀ c ∈ num, numChar c = true)
    (hu : unit ≠ []) (huall : ∀ c ∈ unit, unitChar c = true)
    (hrest : ∀ c, rest.head? = some c → unitChar c = false) :
    findMatch (num ++ (unit ++ rest)) = some (num, unit, rest) := by
  cases num with
  | nil => exact absurd rfl hn
  | cons c numTail =>
    have hc : numChar c = true := hnall c (by simp)
    have ht1 : takeRun numChar (numTail ++ (unit ++ rest))
        = (numTail, unit ++ rest) := by
      apply takeRun_of_append
      · intro x hx
        exact hnall x (by simp [hx])
      · intro x hx
        cases unit with
        | nil => exact absurd rfl hu
        | cons uc ut =>
          rw [List.cons_append] at hx
          simp only [List.head?_cons, Option.some.injEq] at hx
          rw [← hx]
          exact unitChar_not_numChar (huall uc (by simp))
    have ht2 : takeRun unitChar (unit ++ rest) = (unit, rest) :=
      takeRun_of_append unitChar unit rest huall hrest
    have hemp : unit.isEmpty = false := by
      cases unit with
      | nil => exact absurd rfl hu
      | cons a b => rfl
    rw [List.cons_append]
    simp only [findMatch, hc, ht1, ht2, hemp, Bool.false_eq_true, if_false,
      if_true]

/-- Unfolding of the pair rendering over a cons. -/
theorem renderPairs_cons (p : GoodPair) (ps : List GoodPair) :
    renderPairs (p :: ps) = p.numText ++ (p.suffix ++ renderPairs ps) := by
  simp [renderPairs, GoodPair.render, List.append_assoc]

/-- The rendering of a list of valid pairs starts with a numeric-class
character when nonempty. -/
theorem renderPairs_head_numChar (ps : List GoodPair)
    (hv : ∀ p ∈ ps, p.valid) :
    ∀ c, (renderPairs ps).head? = some c → numChar c = true := by
  cases ps with
  | nil => intro c hc; simp [renderPairs] at hc
  | cons p ps =>
    intro c hc
    obtain ⟨d, t, hdt, hd⟩ := numText_head p (hv p (by simp))
    rw [renderPairs_cons, hdt, List.cons_append] at hc
    simp only [List.head?_cons, Option.some.injEq] at hc
    rw [← hc]
    exact hd

/-- The leftmost match of the rendering of a valid pair list is the first
pair followed by the rendering of the rest. -/
theorem findMatch_renderPairs (p : GoodPair) (ps : List GoodPair)
    (hpv : p.valid) (hv : ∀ q ∈ ps, q.valid) :
    findMatch (renderPairs (p :: ps))
      = some (p.numText, p.suffix, renderPairs ps) := by
  have humc := unitMap_chars hpv.2.2.2
  rw [renderPairs_cons]
  apply findMatch_of_shape
  · exact numText_ne_nil p hpv
  · exact numText_numChar p hpv
  · exact humc.1
  · exact humc.2
  · intro c hc
    exact numChar_not_unitChar (renderPairs_head_numChar ps hv c hc)

/-- An own unitMap key is a truthy property access. -/
theorem unitTruthy_of_mapped {u : List Char} {f : UnitField}
    (h : unitMap u = some f) : unitTruthy u = true := by
  simp [unitTruthy, h]

/-- The property assignment for an own unitMap key assigns the mapped
field. -/
theorem assignUnit_mapped (acc : TemporalDuration) {u : List Char}
    {f : UnitField} (h : unitMap u = some f) (v : Int) :
    assignUnit acc u v = acc.set f v := by
  simp [assignUnit, h]

/-- Scanning the rendering of a list of valid pairs with sufficient fuel
performs exactly the per-pair assignments, in order. -/
theorem scanLoop_renderPairs (ps : List GoodPair) :
    (∀ p ∈ ps, p.valid) →
    ∀ (fuel : Nat) (acc : TemporalDuration) (s : String),
      (renderPairs ps).length < fuel →
      scanLoop fuel (renderPairs ps) acc s = .ok (ps.foldl stepPair acc) := by
  induction ps with
  | nil =>
    intro hv fuel acc s hf
    cases fuel with
    | zero => omega
    | succ n => simp [scanLoop, renderPairs, findMatch]
  | cons p ps ih =>
    intro hv fuel acc s hf
    have hpv : p.valid := hv p (by simp)
    have hv' : ∀ q ∈ ps, q.valid := fun q hq => hv q (by simp [hq])
    cases fuel with
    | zero => omega
    | succ n =>
      have hfm := findMatch_renderPairs p ps hpv hv'
      have hpi : parseIntJS p.numText = some p.value := parseIntJS_numText p hpv
      simp only [scanLoop, hfm, hpi, unitTruthy_of_mapped hpv.2.2.2, if_true,
        assignUnit_mapped acc hpv.2.2.2 p.value, List.foldl_cons]
      apply ih hv' n (stepPair acc p) s
      have l1 : 1 ≤ p.numText.length :=
        List.length_pos.mpr (numText_ne_nil p hpv)
      have l2 : 1 ≤ p.suffix.length :=
        List.length_pos.mpr (unitMap_chars hpv.2.2.2).1
      rw [renderPairs_cons, List.length_append, List.length_append] at hf
      omega

/-- The field of the head pair is present in the last-write-wins account of
a pair list. -/
theorem lastOcc_cons_self (p : GoodPair) (ps : List GoodPair) :
    ∃ v, lastOcc p.field (p :: ps) = some v := by
  cases hl : lastOcc p.field ps with
  | some w => exact ⟨w, by simp [lastOcc, hl]⟩
  | none => exact ⟨p.value, by simp [lastOcc, hl]⟩

/-- parseString on the rendering of a nonempty list of valid pairs whose
last-write-wins record is within the duration range limits succeeds and
returns the duration of that record. -/
theorem parseString_render_ok (ps : List GoodPair) (hne : ps ≠ [])
    (hv : ∀ p ∈ ps, p.valid)
    (hlim : withinLimits
      (recToTDur (ps.foldl stepPair TemporalDuration.empty)) = true) :
    parseString (String.mk (renderPairs ps))
      = .ok (recToTDur (ps.foldl stepPair TemporalDuration.empty)) := by
  cases ps with
  | nil => exact absurd rfl hne
  | cons p ps' =>
    have hpv : p.valid := hv p (by simp)
    have hv' : ∀ q ∈ ps', q.valid := fun q hq => hv q (by simp [hq])
    have hfm := findMatch_renderPairs p ps' hpv hv'
    have hnn : (findMatch (renderPairs (p :: ps'))).isNone = false := by
      rw [hfm]; rfl
    have hscan := scanLoop_renderPairs (p :: ps') hv
      ((renderPairs (p :: ps')).length + 1) TemporalDuration.empty
      (String.mk (renderPairs (p :: ps'))) (Nat.lt_succ_self _)
    obtain ⟨v, hval⟩ := lastOcc_cons_self p ps'
    have hget : ((p :: ps').foldl stepPair TemporalDuration.empty).get p.field
        = some v := by
      rw [foldl_stepPair_get, hval]
    have hfrom := durationFrom_ok hget
      (foldl_stepPair_nonneg (p :: ps') TemporalDuration.empty recNonneg_empty)
      hlim
    show parseCore (renderPairs (p :: ps')) (String.mk (renderPairs (p :: ps')))
      = _
    simp only [parseCore, hnn, Bool.false_eq_true, if_false, hscan, hfrom]

/-- Folding from the empty record realizes exactly the last-write-wins
account: present fields are the last occurrences, all others absent. -/
theorem foldl_stepPair_empty_get (ps : List GoodPair) (f : UnitField) :
    (ps.foldl stepPair TemporalDuration.empty).get f = lastOcc f ps := by
  rw [foldl_stepPair_get]
  cases h : lastOcc f ps <;> simp [TemporalDuration.empty_get]

/-- Counterexample to claim C1 as stated: the well-formed pair sequence
"-1h30m" (the specification's own grammar example, a signed number pair
followed by an unsigned one) does not parse successfully; the scan produces
the mixed-sign record of hours minus one and minutes thirty, which the
external library's record conversion rejects, so parseString throws instead
of succeeding. -/
theorem parse_mixed_sign_counterexample :
    parseString "-1h30m" = Except.error ParseError.invalidMagnitude := by
  decide

/-- Claim C1 (amended): for every nonempty sequence of well-formed pairs
whose numbers are nonnegative (an optional plus sign, a digit run, an
optional fractional part that parseInt truncates away; the minus sign is
excluded because a mixed-sign result is rejected by the record conversion,
see the counterexample), whose suffixes are unitMap keys, whose numeric
values stay below two to the fifty-third (above which JavaScript's parseInt
no longer returns the exact value, so the model asserts nothing there) and
whose last-write-wins record is within the duration range limits of the
record conversion, parseString of their concatenation succeeds, and the
resulting record carries exactly the mentioned fields, each holding the
value of its last occurrence (last-write-wins, no accumulation), all other
fields absent (zero in the returned duration). -/
theorem parseString_wellformed (ps : List GoodPair) (hne : ps ≠ [])
    (hv : ∀ p ∈ ps, p.valid)
    (hexact : ∀ p ∈ ps, digitsVal p.digits < 9007199254740992)
    (hlim : withinLimits
      (recToTDur (ps.foldl stepPair TemporalDuration.empty)) = true) :
    parseString (String.mk (renderPairs ps))
      = .ok (recToTDur (ps.foldl stepPair TemporalDuration.empty))
    ∧ ∀ f : UnitField,
        (ps.foldl stepPair TemporalDuration.empty).get f = lastOcc f ps :=
  ⟨parseString_render_ok ps hne hv hlim, fun f => foldl_stepPair_empty_get ps f⟩

/-- Witness for the amended C1 at the pair list rendering "1h1h": parsing
succeeds with hours one and every other field zero, and the record holds the
last occurrence of the hours field. -/
theorem parseString_wellformed_witness :
    parseString (String.mk (renderPairs
        [⟨false, ['1'], none, UnitField.hours, ['h']⟩,
         ⟨false, ['1'], none, UnitField.hours, ['h']⟩]))
      = Except.ok ⟨0, 0, 0, 0, 1, 0, 0, 0, 0, 0⟩
    ∧ ([⟨false, ['1'], none, UnitField.hours, ['h']⟩,
        ⟨false, ['1'], none, UnitField.hours, ['h']⟩].foldl stepPair
          TemporalDuration.empty).get UnitField.hours
      = lastOcc UnitField.hours
          [⟨false, ['1'], none, UnitField.hours, ['h']⟩,
           ⟨false, ['1'], none, UnitField.hours, ['h']⟩] := by
  have h := parseString_wellformed
    [⟨false, ['1'], none, UnitField.hours, ['h']⟩,
     ⟨false, ['1'], none, UnitField.hours, ['h']⟩] (by simp) (by decide)
    (by decide) (by decide)
  exact ⟨h.1.trans (by decide), h.2 UnitField.hours⟩

/-- Counterexample to claim C7 as stated: parsing "1.5s" succeeds but the
seconds field holds the truncated integer one (parseInt stops at the full
stop), not the fractional value three halves. -/
theorem parse_fraction_counterexample :
    parseString "1.5s" = Except.ok ⟨0, 0, 0, 0, 0, 0, 1, 0, 0, 0⟩
    ∧ 2 * (⟨0, 0, 0, 0, 0, 0, 1, 0, 0, 0⟩ : TDur).seconds ≠ 3 :=
  ⟨by decide, by decide⟩

/-- Claim C7 (amended): parseString accepts numbers containing a sign,
digits and a decimal point syntactically, but converts them with parseInt,
which truncates at the decimal point: parsing a digit run (of value below
two to the fifty-third, the exact range of parseInt and of the duration
range limit for a seconds-only record), a full stop, a fractional digit run
and the seconds suffix succeeds with the seconds field holding the integer
part only. -/
theorem parse_truncates_fraction (a b : List Char) (ha : a ≠ [])
    (hda : ∀ c ∈ a, isDigitChar c = true)
    (hdb : ∀ c ∈ b, isDigitChar c = true)
    (hsz : digitsVal a < 9007199254740992) :
    parseString (String.mk (a ++ '.' :: (b ++ ['s'])))
      = .ok ⟨0, 0, 0, 0, 0, 0, (digitsVal a : Int), 0, 0, 0⟩ := by
  have hr : renderPairs [⟨false, a, some b, UnitField.seconds, ['s']⟩]
      = a ++ '.' :: (b ++ ['s']) := by
    simp [renderPairs, GoodPair.render, GoodPair.numText, GoodPair.fracPart]
  have hv : (⟨false, a, some b, UnitField.seconds, ['s']⟩ : GoodPair).valid := by
    refine ⟨ha, List.all_eq_true.mpr hda, List.all_eq_true.mpr hdb, ?_⟩
    show unitMap ['s'] = some UnitField.seconds
    decide
  have hlim : withinLimits
      (recToTDur ([⟨false, a, some b, UnitField.seconds, ['s']⟩].foldl
        stepPair TemporalDuration.empty)) = true := by
    show withinLimits ⟨0, 0, 0, 0, 0, 0, (digitsVal a : Int), 0, 0, 0⟩ = true
    simp only [withinLimits, normalizedNanos, Bool.and_eq_true,
      decide_eq_true_eq]
    refine ⟨⟨⟨by decide, by decide⟩, by decide⟩, ?_⟩
    omega
  have h := parseString_render_ok
    [⟨false, a, some b, UnitField.seconds, ['s']⟩] (by simp)
    (by intro q hq; rcases List.mem_singleton.mp hq with rfl; exact hv) hlim
  rw [← hr, h]
  rfl

/-- Witness for the amended C7 at "1.5s": the rendered input is the literal
"1.5s" and parsing yields seconds equal to one. -/
theorem parse_truncates_fraction_witness :
    String.mk (['1'] ++ '.' :: (['5'] ++ ['s'])) = "1.5s"
    ∧ parseString (String.mk (['1'] ++ '.' :: (['5'] ++ ['s'])))
      = Except.ok ⟨0, 0, 0, 0, 0, 0, 1, 0, 0, 0⟩ := by
  refine ⟨by decide, ?_⟩
  exact (parse_truncates_fraction ['1'] ['5'] (by simp) (by decide)
    (by decide) (by decide)).trans (by decide)
